import Mathlib

/-!
Shallow embedding of the rust-synthesizer-wasm signal core.

Floating-point (`f32`) values of the source are modelled as exact rationals
(`ℚ`); the transcendental sine is either kept abstract (the flanger LFO
receives the oscillator as a function argument) or modelled over `ℝ`
(the sine waveform generator).  Machine integers (`usize`, `u32`) are
modelled as `ℕ`; the Rust cast `x as usize` (truncation toward zero,
saturating at 0 for negative inputs) is `f32AsUsize`.
-/

namespace Synth

/-- Models the Rust cast `x as usize` applied to a (nonnegative or negative)
`f32`: truncation toward zero, saturating at `0` below zero. -/
def f32AsUsize (q : ℚ) : ℕ := (⌊q⌋ : ℤ).toNat

/-- Models `f32::clamp(lo, hi)` (for `lo ≤ hi`): `min (max x lo) hi`. -/
def rustClamp (x lo hi : ℚ) : ℚ := min (max x lo) hi

/-- Models the Rust `%` operator on `f32` for a nonnegative left operand and a
positive right operand (the only way it is used in the scheduler and the
waveform generators): `t - p * trunc (t / p)`, which for `t ≥ 0 < p` equals
`t - p * ⌊t / p⌋`. -/
def fmod (t p : ℚ) : ℚ := t - p * (⌊t / p⌋ : ℤ)

/-! ## ADSR envelope (src/waveforms/adsr_envelope.rs)

The generic source parameter `S` of `ADSREnvelope<S>` is dropped: the claims
quantify over sources that always yield a sample, so `next` takes the sample
produced by the underlying source as an argument. -/

/-- State of `ADSREnvelope` (adsr_envelope.rs lines 5–18). -/
structure ADSRState where
  sample_count : ℕ
  attack_samples : ℕ
  decay_samples : ℕ
  sustain_level : ℚ
  release_samples : ℕ
  release_start_sample : Option ℕ
  is_released : Bool
  max_sustain_samples : ℕ
deriving Repr, DecidableEq

/-- `ADSREnvelope::new` (adsr_envelope.rs lines 24–44); `attack`, `decay`,
`release` in seconds, `sustain` a level in `[0,1]`, and the sample rate of the
wrapped source. -/
def ADSRState.new (attack decay sustain release sample_rate : ℚ) : ADSRState where
  sample_count := 0
  attack_samples := f32AsUsize (attack * sample_rate)
  decay_samples := f32AsUsize (decay * sample_rate)
  sustain_level := sustain
  release_samples := max (f32AsUsize (release * sample_rate)) 1
  release_start_sample := none
  is_released := false
  max_sustain_samples := f32AsUsize ((release * (1/2) + 1/20) * sample_rate)

/-- `ADSREnvelope::release` (adsr_envelope.rs lines 46–51). -/
def ADSRState.release (e : ADSRState) : ADSRState :=
  if e.is_released = false then
    { e with release_start_sample := some e.sample_count, is_released := true }
  else e

/-- `ADSREnvelope::calculate_envelope_amplitude` (adsr_envelope.rs lines
53–87). -/
def ADSRState.calculate_envelope_amplitude (e : ADSRState) : ℚ :=
  match e.release_start_sample with
  | some release_start =>
    -- Release phase
    let release_progress := e.sample_count - release_start
    if e.release_samples ≤ release_progress then 0
    else if e.release_samples = 0 then 0
    else e.sustain_level * (1 - (release_progress : ℚ) / (e.release_samples : ℚ))
  | none =>
    if e.sample_count ≤ e.attack_samples then
      -- Attack phase
      if e.attack_samples = 0 then 1
      else min ((e.sample_count : ℚ) / (e.attack_samples : ℚ)) 1
    else if e.sample_count ≤ e.attack_samples + e.decay_samples then
      -- Decay phase
      if e.decay_samples = 0 then e.sustain_level
      else 1 - (1 - e.sustain_level) *
        (((e.sample_count - e.attack_samples : ℕ) : ℚ) / (e.decay_samples : ℚ))
    else
      -- Sustain phase
      e.sustain_level

/-- `<ADSREnvelope as Iterator>::next` (adsr_envelope.rs lines 96–121) for a
source that yields `sample`; returns `none` when the iterator ends the
sound. -/
def ADSRState.next (e : ADSRState) (sample : ℚ) : Option (ℚ × ADSRState) :=
  let envelope_amplitude := e.calculate_envelope_amplitude
  let count := e.sample_count + 1
  -- Auto-release after max sustain time
  let auto : Bool :=
    decide (e.attack_samples + e.decay_samples + e.max_sustain_samples < count)
      && !e.is_released
  let rs := if auto then some count else e.release_start_sample
  let e1 : ADSRState :=
    { e with sample_count := count, release_start_sample := rs,
             is_released := if auto then true else e.is_released }
  -- If we are in release phase and the envelope is finished, end the sound
  if (match rs with
      | some release_start => decide (e.release_samples ≤ count - release_start)
      | none => false) then none
  -- End the sound once in release phase with effectively zero amplitude
  else if decide (envelope_amplitude < 1/10000) && rs.isSome then none
  else some (sample * envelope_amplitude, e1)

/-- The state transition of one `next` call on an always-yielding source (the
emitted sample value does not influence the state). -/
def ADSRState.nextState (e : ADSRState) : Option ADSRState :=
  (e.next 0).map Prod.snd

/-- Iterated `next` on an always-yielding source: `none` once the envelope has
ended the sound within the given number of iterations. -/
def adsrRun (e : ADSRState) : ℕ → Option ADSRState
  | 0 => some e
  | n + 1 => (adsrRun e n).bind ADSRState.nextState

/-! ## Delay effect (src/effects/delay.rs) -/

/-- State of `DelayEffect` (delay.rs lines 4–18); the circular sample buffer
is a list of (exact-rational models of) `f32` samples. -/
structure DelayEffect where
  buffer : List ℚ
  write_index : ℕ
  delay_samples : ℕ
  feedback : ℚ
  mix : ℚ
  sample_rate : ℕ
  tap1_samples : ℕ
  tap2_samples : ℕ
  damping_filter : ℚ
  damping_coefficient : ℚ
deriving Repr

/-- `DelayEffect::new` (delay.rs lines 28–48). -/
def DelayEffect.new (delay_time_ms feedback mix : ℚ) (sample_rate : ℕ) : DelayEffect :=
  let delay_samples := f32AsUsize (delay_time_ms / 1000 * (sample_rate : ℚ))
  let buffer_size := max delay_samples 1024
  let tap1_samples := f32AsUsize ((delay_samples : ℚ) * (618/1000))
  let tap2_samples := f32AsUsize ((delay_samples : ℚ) * (382/1000))
  { buffer := List.replicate buffer_size 0
    write_index := 0
    delay_samples := delay_samples
    feedback := rustClamp feedback 0 (95/100)
    mix := rustClamp mix 0 1
    sample_rate := sample_rate
    tap1_samples := tap1_samples
    tap2_samples := tap2_samples
    damping_filter := 0
    damping_coefficient := 3/10 }

/-- `DelayEffect::set_delay_time` (delay.rs lines 51–66). -/
def DelayEffect.set_delay_time (s : DelayEffect) (delay_time_ms : ℚ) : DelayEffect :=
  let new_delay_samples := f32AsUsize (delay_time_ms / 1000 * (s.sample_rate : ℚ))
  if new_delay_samples ≠ s.delay_samples then
    { s with
      delay_samples := new_delay_samples
      tap1_samples := f32AsUsize ((new_delay_samples : ℚ) * (618/1000))
      tap2_samples := f32AsUsize ((new_delay_samples : ℚ) * (382/1000))
      buffer := if s.buffer.length ≤ new_delay_samples
        then s.buffer ++ List.replicate (new_delay_samples + 1024 - s.buffer.length) 0
        else s.buffer }
  else s

/-- `DelayEffect::set_feedback` (delay.rs lines 69–71). -/
def DelayEffect.set_feedback (s : DelayEffect) (feedback : ℚ) : DelayEffect :=
  { s with feedback := rustClamp feedback 0 (99/100) }

/-- `DelayEffect::set_mix` (delay.rs lines 74–76). -/
def DelayEffect.set_mix (s : DelayEffect) (mix : ℚ) : DelayEffect :=
  { s with mix := rustClamp mix 0 1 }

/-- The read index computed by `DelayEffect::read_tap` (delay.rs lines 84–88)
for a tap that passed the guard. -/
def DelayEffect.readTapIndex (s : DelayEffect) (tap_samples : ℕ) : ℕ :=
  if tap_samples ≤ s.write_index then s.write_index - tap_samples
  else s.buffer.length - (tap_samples - s.write_index)

/-- `DelayEffect::read_tap` (delay.rs lines 79–91); the out-of-range buffer
read is modelled with a `0` default (the bounds theorems show the index is in
range whenever the guard passes). -/
def DelayEffect.read_tap (s : DelayEffect) (tap_samples : ℕ) : ℚ :=
  if tap_samples = 0 ∨ s.buffer.length ≤ tap_samples then 0
  else s.buffer.getD (s.readTapIndex tap_samples % s.buffer.length) 0

/-- `<DelayEffect as AudioEffect>::process_sample` (delay.rs lines 95–116);
returns the output sample and the updated state. -/
def DelayEffect.process_sample (s : DelayEffect) (input : ℚ) : ℚ × DelayEffect :=
  let main_tap := s.read_tap s.delay_samples
  let tap1 := s.read_tap s.tap1_samples
  let tap2 := s.read_tap s.tap2_samples
  let wet_signal := main_tap * (6/10) + tap1 * (25/100) + tap2 * (15/100)
  let damping_filter := wet_signal * (1 - s.damping_coefficient) +
    s.damping_filter * s.damping_coefficient
  let buffer := s.buffer.set s.write_index (input + damping_filter * s.feedback)
  let write_index := (s.write_index + 1) % s.buffer.length
  (input * (1 - s.mix) + wet_signal * s.mix,
   { s with buffer := buffer, write_index := write_index,
            damping_filter := damping_filter })

/-- `<DelayEffect as AudioEffect>::reset` (delay.rs lines 118–122). -/
def DelayEffect.reset (s : DelayEffect) : DelayEffect :=
  { s with buffer := List.replicate s.buffer.length 0
           write_index := 0
           damping_filter := 0 }

/-- The outputs of repeatedly feeding `0.0` into a `DelayEffect`. -/
def delayRunZeros (s : DelayEffect) : ℕ → List ℚ
  | 0 => []
  | n + 1 =>
    let r := s.process_sample 0
    r.1 :: delayRunZeros r.2 n

/-! ## Reverb effect (src/effects/reverb.rs)

The source keeps three parallel vectors `comb_delays` / `comb_indices` /
`comb_feedback` (and two for the all-pass stage); the embedding fuses each
triple (pair) into one record per filter line, in the same order. -/

/-- One comb filter line: its delay buffer, read/write cursor, and feedback
coefficient (reverb.rs lines 6–9). -/
structure CombLine where
  buf : List ℚ
  idx : ℕ
  feedback : ℚ
deriving Repr

/-- One all-pass filter line: its delay buffer and cursor (reverb.rs lines
11–13). -/
structure AllpassLine where
  buf : List ℚ
  idx : ℕ
deriving Repr

/-- State of `ReverbEffect` (reverb.rs lines 4–23). -/
structure ReverbEffect where
  combs : List CombLine
  allpasses : List AllpassLine
  allpass_feedback : ℚ
  room_size : ℚ
  damping : ℚ
  mix : ℚ
  damping_filter : ℚ
deriving Repr

/-- The loop body fold of `ReverbEffect::process_comb_filters` (reverb.rs
lines 73–98): threads the shared damping filter state through the comb lines
in order, returning (accumulated output, final damping state, updated
lines). -/
def processCombList (damping input : ℚ) :
    List CombLine → ℚ → ℚ × ℚ × List CombLine
  | [], damping_filter => (0, damping_filter, [])
  | c :: rest, damping_filter =>
    let delayed := c.buf.getD c.idx 0
    let df := delayed * (1 - damping) + damping_filter * damping
    let buf := c.buf.set c.idx (input + df * c.feedback)
    let idx := (c.idx + 1) % c.buf.length
    let r := processCombList damping input rest df
    (delayed + r.1, r.2.1, ⟨buf, idx, c.feedback⟩ :: r.2.2)

/-- `ReverbEffect::process_comb_filters` (reverb.rs lines 73–98). -/
def ReverbEffect.process_comb_filters (s : ReverbEffect) (input : ℚ) :
    ℚ × ReverbEffect :=
  let r := processCombList s.damping input s.combs s.damping_filter
  (r.1 / (s.combs.length : ℚ),
   { s with combs := r.2.2, damping_filter := r.2.1 })

/-- The loop body fold of `ReverbEffect::process_allpass_filters` (reverb.rs
lines 101–120): cascades the input through the all-pass lines in order. -/
def processAllpassList (allpass_feedback : ℚ) :
    List AllpassLine → ℚ → ℚ × List AllpassLine
  | [], input => (input, [])
  | a :: rest, input =>
    let delayed := a.buf.getD a.idx 0
    let output := -input + delayed
    let buf := a.buf.set a.idx (input + delayed * allpass_feedback)
    let idx := (a.idx + 1) % a.buf.length
    let r := processAllpassList allpass_feedback rest output
    (r.1, ⟨buf, idx⟩ :: r.2)

/-- `ReverbEffect::process_allpass_filters` (reverb.rs lines 101–120). -/
def ReverbEffect.process_allpass_filters (s : ReverbEffect) (input : ℚ) :
    ℚ × ReverbEffect :=
  let r := processAllpassList s.allpass_feedback s.allpasses input
  (r.1, { s with allpasses := r.2 })

/-- `<ReverbEffect as AudioEffect>::process_sample` (reverb.rs lines
144–153). -/
def ReverbEffect.process_sample (s : ReverbEffect) (input : ℚ) :
    ℚ × ReverbEffect :=
  let comb := s.process_comb_filters input
  let reverb := comb.2.process_allpass_filters comb.1
  (input * (1 - s.mix) + reverb.1 * s.mix, reverb.2)

/-- `<ReverbEffect as AudioEffect>::reset` (reverb.rs lines 155–170): zeroes
every delay line, resets all cursors and the shared damping state. -/
def ReverbEffect.reset (s : ReverbEffect) : ReverbEffect :=
  { s with
    combs := s.combs.map (fun c => ⟨List.replicate c.buf.length 0, 0, c.feedback⟩)
    allpasses := s.allpasses.map (fun a => ⟨List.replicate a.buf.length 0, 0⟩)
    damping_filter := 0 }

/-- The outputs of repeatedly feeding `0.0` into a `ReverbEffect`. -/
def reverbRunZeros (s : ReverbEffect) : ℕ → List ℚ
  | 0 => []
  | n + 1 =>
    let r := s.process_sample 0
    r.1 :: reverbRunZeros r.2 n

/-! ## Flanger effect (src/effects/flanger.rs)

The only transcendental operation, `(lfo_phase * 2.0 * PI).sin()`, is kept
abstract: `process_sample` receives a function `sin2pi : ℚ → ℚ` standing for
`fun x => Real.sin (x * 2 * π)`; theorems that need it assume
`|sin2pi x| ≤ 1`. -/

/-- State of `FlangerEffect` (flanger.rs lines 5–22). -/
structure FlangerEffect where
  buffer : List ℚ
  write_index : ℕ
  lfo_phase : ℚ
  lfo_rate : ℚ
  delay_base : ℚ
  delay_range : ℚ
  depth : ℚ
  feedback : ℚ
  mix : ℚ
  sample_rate : ℕ
deriving Repr

/-- `FlangerEffect::new` (flanger.rs lines 33–53). -/
def FlangerEffect.new (lfo_rate depth feedback mix : ℚ) (sample_rate : ℕ) :
    FlangerEffect :=
  let delay_base := (2/1000) * (sample_rate : ℚ)
  let delay_range := (8/1000) * (sample_rate : ℚ)
  let buffer_size := max (f32AsUsize (delay_base + delay_range) + 1) 1024
  { buffer := List.replicate buffer_size 0
    write_index := 0
    lfo_phase := 0
    lfo_rate := max lfo_rate (1/100)
    delay_base := delay_base
    delay_range := delay_range
    depth := rustClamp depth 0 1
    feedback := rustClamp feedback 0 (99/100)
    mix := rustClamp mix 0 1
    sample_rate := sample_rate }

/-- `FlangerEffect::lerp` (flanger.rs lines 56–58). -/
def FlangerEffect.lerp (a b t : ℚ) : ℚ := a + t * (b - a)

/-- The first read index computed by `FlangerEffect::get_delayed_sample`
(flanger.rs lines 66–70). -/
def FlangerEffect.readIndex1 (s : FlangerEffect) (delay_int : ℕ) : ℕ :=
  if delay_int ≤ s.write_index then s.write_index - delay_int
  else s.buffer.length - (delay_int - s.write_index)

/-- The second read index computed by `FlangerEffect::get_delayed_sample`
(flanger.rs lines 72–76). -/
def FlangerEffect.readIndex2 (s : FlangerEffect) (delay_int : ℕ) : ℕ :=
  if s.readIndex1 delay_int = 0 then s.buffer.length - 1
  else s.readIndex1 delay_int - 1

/-- `FlangerEffect::get_delayed_sample` (flanger.rs lines 61–83). -/
def FlangerEffect.get_delayed_sample (s : FlangerEffect) (delay_samples : ℚ) : ℚ :=
  let delay_int := f32AsUsize delay_samples
  let delay_frac := delay_samples - (delay_int : ℚ)
  let sample1 := s.buffer.getD (s.readIndex1 delay_int % s.buffer.length) 0
  let sample2 := s.buffer.getD (s.readIndex2 delay_int % s.buffer.length) 0
  FlangerEffect.lerp sample1 sample2 delay_frac

/-- The modulated total delay computed by
`<FlangerEffect as AudioEffect>::process_sample` (flanger.rs lines 109–113)
given the LFO sine value. -/
def FlangerEffect.totalDelay (s : FlangerEffect) (lfo_value : ℚ) : ℚ :=
  s.delay_base + (lfo_value * (1/2) + 1/2) * s.delay_range * s.depth

/-- `<FlangerEffect as AudioEffect>::process_sample` (flanger.rs lines
107–132), with the sine oscillator abstracted as `sin2pi`. -/
def FlangerEffect.process_sample (sin2pi : ℚ → ℚ) (s : FlangerEffect)
    (input : ℚ) : ℚ × FlangerEffect :=
  let lfo_value := sin2pi s.lfo_phase
  let total_delay := s.totalDelay lfo_value
  let delayed_sample := s.get_delayed_sample total_delay
  let buffer := s.buffer.set s.write_index (input + delayed_sample * s.feedback)
  let write_index := (s.write_index + 1) % s.buffer.length
  let phase := s.lfo_phase + s.lfo_rate / (s.sample_rate : ℚ)
  let lfo_phase := if 1 ≤ phase then phase - 1 else phase
  (input * (1 - s.mix) + delayed_sample * s.mix,
   { s with buffer := buffer, write_index := write_index, lfo_phase := lfo_phase })

/-- `<FlangerEffect as AudioEffect>::reset` (flanger.rs lines 134–138). -/
def FlangerEffect.reset (s : FlangerEffect) : FlangerEffect :=
  { s with buffer := List.replicate s.buffer.length 0
           write_index := 0
           lfo_phase := 0 }

/-- The outputs of repeatedly feeding `0.0` into a `FlangerEffect`. -/
def flangerRunZeros (sin2pi : ℚ → ℚ) (s : FlangerEffect) : ℕ → List ℚ
  | 0 => []
  | n + 1 =>
    let r := FlangerEffect.process_sample sin2pi s 0
    r.1 :: flangerRunZeros sin2pi r.2 n

/-! ## Session state and playback scheduler
(src/state/mod.rs, src/input/commands/recording_control.rs,
src/input/commands/mouse_input.rs)

Only the fields the recording/playback claims read are modelled; `Instant`
values become rational timestamps supplied as arguments. -/

/-- `RecordingState` (state/mod.rs lines 103–107). -/
inductive RecordingState where
  | Stopped
  | Recording
  | Playing
deriving Repr, DecidableEq

/-- `RecordedNote` (pitch and octave are opaque to the claims; timestamp and
duration are seconds). -/
structure RecordedNote where
  note : ℕ
  octave : ℤ
  timestamp : ℚ
  duration : ℚ
deriving Repr, DecidableEq

/-- The fields of `Track` read by the playback-scheduling and
state-transition claims. -/
structure Track where
  playing : Bool
  recorded_notes : List RecordedNote
deriving Repr, DecidableEq

instance : Inhabited Track := ⟨⟨false, []⟩⟩

/-- The fields of `State` read by the playback-scheduling and
state-transition claims; `recorded_notes` is the legacy session-level note
list (distinct from the per-track lists). -/
structure State where
  recording_state : RecordingState
  tracks : List Track
  recorded_notes : List RecordedNote
  playback_start_time : Option ℚ
deriving Repr, DecidableEq

/-- `State::playing_tracks` (state/mod.rs lines 514–520): the indices `i`
with `tracks[i].playing && !tracks[i].recorded_notes.is_empty()`; models
`iter().enumerate().filter(..).map(|(i, _)| i)` by filtering the index
range. -/
def State.playing_tracks (s : State) : List ℕ :=
  (List.range s.tracks.length).filter fun i =>
    (s.tracks.getD i default).playing ∧ (s.tracks.getD i default).recorded_notes ≠ []

/-- `State::has_playing_tracks` (state/mod.rs lines 523–525). -/
def State.has_playing_tracks (s : State) : Bool :=
  s.tracks.any fun track => track.playing && !track.recorded_notes.isEmpty

/-- `State::start_playback` (state/mod.rs lines 384–389); `t` models
`Instant::now()`. -/
def State.start_playback (s : State) (t : ℚ) : State :=
  if s.recorded_notes ≠ [] then
    { s with recording_state := RecordingState.Playing,
             playback_start_time := some t }
  else s

/-- `State::stop_playback` (state/mod.rs lines 391–394). -/
def State.stop_playback (s : State) : State :=
  { s with recording_state := RecordingState.Stopped, playback_start_time := none }

/-- The toggle `state.tracks[i].playing = !state.tracks[i].playing` of the
play-button branch of `handle_track_transport_click` (mouse_input.rs line
514). -/
def transportToggleState (s : State) (i : ℕ) : State :=
  let tr := s.tracks.getD i default
  { s with tracks := s.tracks.set i { tr with playing := !tr.playing } }

/-- The play-button branch of `handle_track_transport_click`
(mouse_input.rs lines 511–526), for a click on track `i` at time `t`:
toggles the `playing` flag of the track when it has recorded content, then enters
`Playing` when some track is playing, else stops playback. -/
def handle_track_transport_play (s : State) (i : ℕ) (t : ℚ) : State :=
  if (s.tracks.getD i default).recorded_notes ≠ [] then
    let s1 := transportToggleState s i
    if s1.has_playing_tracks then
      if s1.recording_state ≠ RecordingState.Playing then
        { s1 with recording_state := RecordingState.Playing,
                  playback_start_time := some t }
      else s1
    else s1.stop_playback
  else s

/-- The per-track loop-length computed inside `handle_playback`
(recording_control.rs lines 75–84): `0` for an empty note list, otherwise
the fold of `f32::max` over `timestamp + duration` starting from `0.0`. -/
def trackPeak (track : Track) : ℚ :=
  if track.recorded_notes = [] then 0
  else (track.recorded_notes.map fun note => note.timestamp + note.duration).foldl max 0

/-- The loop duration computed by `handle_playback` (recording_control.rs
lines 74–85): the fold of `f32::max` over the peaks of the playing tracks. -/
def maxLoopDuration (s : State) : ℚ :=
  ((s.playing_tracks).map fun track_id => trackPeak (s.tracks.getD track_id default)).foldl max 0

/-- The loop time computed by `handle_playback` (recording_control.rs lines
88–92). -/
def loopTime (current_time max_loop_duration : ℚ) : ℚ :=
  if 0 < max_loop_duration then fmod current_time max_loop_duration
  else current_time

/-- The wrap-handling of `LAST_LOOP_TIME` in `handle_playback`
(recording_control.rs lines 99–102): on a loop-boundary crossing the stored
reference is reset to `-1.0`. -/
def effectiveLast (last_loop_time loop_time : ℚ) : ℚ :=
  if loop_time < last_loop_time then -1 else last_loop_time

/-- The note-trigger test of `handle_playback` (recording_control.rs lines
108–113), after the wrap reset has been applied to the stored reference. -/
def shouldTrigger (last_loop_time loop_time note_start : ℚ) : Bool :=
  let l := effectiveLast last_loop_time loop_time
  (decide (l < note_start) && decide (note_start ≤ loop_time)) ||
    (decide (l < 0) && decide (note_start ≤ loop_time) &&
      decide (loop_time < note_start + 1/20))

/-! ## Waveform generators (src/waveforms/) -/

/-- `SAMPLE_RATE` (waveforms/mod.rs). -/
def SAMPLE_RATE : ℚ := 48000

/-- `calculate_sawtooth` (sawtooth_wave.rs lines 57–68). -/
def calculate_sawtooth (frequency : ℚ) (num_sample : ℕ) : ℚ :=
  let time : ℚ := (num_sample : ℚ) / SAMPLE_RATE
  let period : ℚ := 1 / frequency
  let phase := fmod time period / period
  2 * phase - 1

/-- `calculate_triangle` (triangle_wave.rs lines 57–72). -/
def calculate_triangle (frequency : ℚ) (num_sample : ℕ) : ℚ :=
  let time : ℚ := (num_sample : ℚ) / SAMPLE_RATE
  let period : ℚ := 1 / frequency
  let phase := fmod time period / period
  if phase < 1/2 then 4 * phase - 1 else 3 - 4 * phase

/-- Modelled from the spec: the file src/waveforms/sine_wave.rs is declared in
waveforms/mod.rs and used by the mixer and the square wave, but is not part of
the sources provided; per spec §4.1 the sine generator is
`sin(2π·frequency·sample_index/sample_rate)` at the fixed 48000 sample
rate. -/
noncomputable def calculate_sine (frequency : ℚ) (num_sample : ℕ) : ℝ :=
  Real.sin (2 * Real.pi * (frequency : ℝ) * (num_sample : ℝ) / 48000)

/-- `sgn` (square_wave.rs lines 66–68), i.e. `f32::signum`: `1.0` for
positive values and positive zero, `-1.0` for negative values (the real model
has a single zero, mapped to `1`). -/
noncomputable def sgn (x : ℝ) : ℝ := if x < 0 then -1 else 1

/-- The sample produced by `<SquareWave as Iterator>::next` (square_wave.rs
lines 24–36) at sample counter `num_sample`:
`sgn(calculate_sine(freq, num_sample))`. -/
noncomputable def squareSample (frequency : ℚ) (num_sample : ℕ) : ℝ :=
  sgn (calculate_sine frequency num_sample)

/-! ## Auxiliary definitions used by the theorems -/

/-- The two bounds every `DelayEffect` reachable through the constructor and
the mutators satisfies: the write cursor is inside the buffer and the buffer
holds at least the minimum 1024 samples. -/
def DelayInv (s : DelayEffect) : Prop :=
  s.write_index < s.buffer.length ∧ 1024 ≤ s.buffer.length

/-- The bounds every `FlangerEffect` reachable through the constructor and
the mutators satisfies: write cursor inside the buffer, minimum buffer size,
nonnegative base delay and modulation range, depth in `[0,1]`, and a buffer
long enough for the maximum modulated delay. -/
def FlangerInv (s : FlangerEffect) : Prop :=
  s.write_index < s.buffer.length ∧ 1024 ≤ s.buffer.length ∧
    0 ≤ s.delay_base ∧ 0 ≤ s.delay_range ∧ 0 ≤ s.depth ∧ s.depth ≤ 1 ∧
    f32AsUsize (s.delay_base + s.delay_range) < s.buffer.length

/-- Closed form of the `ADSRState` reached after `n` successful `next` calls
on an envelope that started fresh (sample counter `0`, not released) with the
given durations, while the iterator is still alive: auto-release fires at
sample count `attack + decay + max_sustain + 1`. -/
def midState (A D : ℕ) (S : ℚ) (R maxS n : ℕ) : ADSRState where
  sample_count := n
  attack_samples := A
  decay_samples := D
  sustain_level := S
  release_samples := R
  release_start_sample := if A + D + maxS + 1 ≤ n then some (A + D + maxS + 1) else none
  is_released := decide (A + D + maxS + 1 ≤ n)
  max_sustain_samples := maxS

/-! ## Theorems -/

/-- C10: every `ADSREnvelope` built by `new` has `release_samples ≥ 1` (the
computed sample count is clamped with `max(1)`), and the
`release_samples == 0` branch inside `calculate_envelope_amplitude` is
unreachable: whenever control reaches it (release triggered and
`release_progress < release_samples`), `release_samples ≠ 0`. -/
theorem C10_release_samples_at_least_one :
    (∀ attack decay sustain release sample_rate : ℚ,
      1 ≤ (ADSRState.new attack decay sustain release sample_rate).release_samples) ∧
    (∀ (e : ADSRState) (rs : ℕ), e.release_start_sample = some rs →
      ¬ e.release_samples ≤ e.sample_count - rs → e.release_samples ≠ 0) := by
  constructor
  · intro attack decay sustain release sample_rate
    exact le_max_right _ _
  · intro e rs _ hlt
    omega

/-- Witness for C10 at concrete inputs. -/
theorem C10_release_samples_at_least_one_witness :
    1 ≤ (ADSRState.new 0 0 (1/2) 0 48000).release_samples ∧
    (⟨3, 0, 0, 1/2, 5, some 2, true, 7⟩ : ADSRState).release_samples ≠ 0 :=
  ⟨C10_release_samples_at_least_one.1 0 0 (1/2) 0 48000,
   C10_release_samples_at_least_one.2 ⟨3, 0, 0, 1/2, 5, some 2, true, 7⟩ 2 rfl
     (by decide)⟩

/-- C1 counterexample: an envelope with `attack_samples = 100`,
`sustain_level = 1/2`, `release_samples = 10` whose release is triggered at
sample 10 (during the attack phase, where the amplitude is `1/10`): the very
first release-phase amplitude is `1/2` (the sustain level), not the `1/10`
the ramp start of the claim requires. -/
theorem C1_release_ramp_counterexample :
    ADSRState.calculate_envelope_amplitude ⟨10, 100, 0, 1/2, 10, none, false, 1000⟩ = 1/10 ∧
    ADSRState.calculate_envelope_amplitude
      (ADSRState.release ⟨10, 100, 0, 1/2, 10, none, false, 1000⟩) = 1/2 ∧
    ((1 : ℚ)/2) ≠ 1/10 := by
  refine ⟨?_, ?_, by norm_num⟩
  · unfold ADSRState.calculate_envelope_amplitude
    norm_num [min_def]
  · unfold ADSRState.release ADSRState.calculate_envelope_amplitude
    norm_num

/-- C1 amended: once release has been triggered (explicitly or via the
auto-release ceiling), the envelope amplitude ramps linearly from the SUSTAIN
LEVEL down to 0 over `release_samples` samples —
`sustain_level · (1 − progress/release_samples)` while
`progress < release_samples`, and `0` afterwards — regardless of which phase
the envelope was in when release started. -/
theorem C1_release_ramp_from_sustain_level (e : ADSRState) (rs : ℕ)
    (h : e.release_start_sample = some rs) :
    (e.sample_count - rs < e.release_samples →
      e.calculate_envelope_amplitude =
        e.sustain_level *
          (1 - ((e.sample_count - rs : ℕ) : ℚ) / (e.release_samples : ℚ))) ∧
    (e.release_samples ≤ e.sample_count - rs →
      e.calculate_envelope_amplitude = 0) := by
  have hred : e.calculate_envelope_amplitude =
      (if e.release_samples ≤ e.sample_count - rs then 0
       else if e.release_samples = 0 then 0
       else e.sustain_level *
         (1 - ((e.sample_count - rs : ℕ) : ℚ) / (e.release_samples : ℚ))) := by
    unfold ADSRState.calculate_envelope_amplitude
    rw [h]
  refine ⟨fun hp => ?_, fun hp => ?_⟩
  · rw [hred, if_neg (not_le.mpr hp), if_neg (by omega)]
  · rw [hred, if_pos hp]

/-- Witness for the amended theorem of C1: release triggered at sample 10 with
`sustain_level = 1/2`, `release_samples = 10`, evaluated 2 samples later. -/
theorem C1_release_ramp_from_sustain_level_witness :
    ADSRState.calculate_envelope_amplitude ⟨12, 100, 0, 1/2, 10, some 10, true, 1000⟩ = 2/5 := by
  have h :=
    (C1_release_ramp_from_sustain_level ⟨12, 100, 0, 1/2, 10, some 10, true, 1000⟩ 10 rfl).1
      (by decide)
  rw [h]
  norm_num

/-- One `next` call on a not-yet-released envelope that has not hit the
auto-release ceiling: the sample counter advances, nothing else changes. -/
theorem aux_next_fresh {e : ADSRState} (h : e.release_start_sample = none)
    (hrel : e.is_released = false)
    (hauto : ¬ (e.attack_samples + e.decay_samples + e.max_sustain_samples
      < e.sample_count + 1)) :
    e.nextState = some { e with sample_count := e.sample_count + 1 } := by
  unfold ADSRState.nextState ADSRState.next
  simp [h, hrel, hauto]

/-- One `next` call on a not-yet-released envelope that crosses the
auto-release ceiling: release starts at the incremented sample counter, and
the sound ends at once only on amplitude underflow (`release_samples ≥ 1`
rules out the elapsed-release exit). -/
theorem aux_next_auto {e : ADSRState} (h : e.release_start_sample = none)
    (hrel : e.is_released = false)
    (hauto : e.attack_samples + e.decay_samples + e.max_sustain_samples
      < e.sample_count + 1)
    (hR : 1 ≤ e.release_samples) :
    e.nextState =
      (if e.calculate_envelope_amplitude < 1/10000 then none
       else some { e with sample_count := e.sample_count + 1,
                          release_start_sample := some (e.sample_count + 1),
                          is_released := true }) := by
  unfold ADSRState.nextState ADSRState.next
  have h4 : ¬ (e.release_samples = 0) := by omega
  simp [h, hrel, hauto, h4, apply_ite (Option.map (Prod.snd (α := ℚ)))]

/-- One `next` call on an already-released envelope. -/
theorem aux_next_released {e : ADSRState} {r : ℕ}
    (h : e.release_start_sample = some r) (hrel : e.is_released = true) :
    e.nextState =
      (if e.release_samples ≤ e.sample_count + 1 - r then none
       else if e.calculate_envelope_amplitude < 1/10000 then none
       else some { e with sample_count := e.sample_count + 1 }) := by
  unfold ADSRState.nextState ADSRState.next
  simp [h, hrel, apply_ite (Option.map (Prod.snd (α := ℚ)))]

/-- One `next` call from the closed-form mid state, while the
elapsed-release deadline has not been reached: the iterator either ends the
sound early (amplitude underflow) or moves to the next mid state. -/
theorem aux_midState_next {A D : ℕ} {S : ℚ} {R m : ℕ} (hR : 1 ≤ R) {n : ℕ}
    (hn : n < A + D + m + R) :
    (midState A D S R m n).nextState = none ∨
      (midState A D S R m n).nextState = some (midState A D S R m (n + 1)) := by
  by_cases hc1 : n < A + D + m
  · right
    have h2 : ¬ (A + D + m + 1 ≤ n) := by omega
    have h3 : ¬ (A + D + m + 1 ≤ n + 1) := by omega
    rw [aux_next_fresh (e := midState A D S R m n)
      (by simp [midState, h2]) (by simp [midState, h2])
      (by simp only [midState]; omega)]
    simp [midState, h2, h3]
  · by_cases hc2 : n = A + D + m
    · have h2 : ¬ (A + D + m + 1 ≤ n) := by omega
      have h3 : A + D + m + 1 ≤ n + 1 := by omega
      rw [aux_next_auto (e := midState A D S R m n)
        (by simp [midState, h2]) (by simp [midState, h2])
        (by simp only [midState]; omega) hR]
      split
      · exact Or.inl rfl
      · right
        simp [midState, h2, h3, hc2]
    · have h2 : A + D + m + 1 ≤ n := by omega
      have h3 : A + D + m + 1 ≤ n + 1 := by omega
      rw [aux_next_released (e := midState A D S R m n) (r := A + D + m + 1)
        (by simp [midState, h2]) (by simp [midState, h2])]
      have hcond : ¬ ((midState A D S R m n).release_samples ≤
          (midState A D S R m n).sample_count + 1 - (A + D + m + 1)) := by
        simp only [midState]
        omega
      rw [if_neg hcond]
      split
      · exact Or.inl rfl
      · right
        simp [midState, h2, h3]

/-- Iterating from the fresh state up to the deadline stays within the
closed-form mid states (or has already ended the sound). -/
theorem aux_adsrRun_midState {A D : ℕ} {S : ℚ} {R m : ℕ} (hR : 1 ≤ R) :
    ∀ n, n ≤ A + D + m + R →
      adsrRun (midState A D S R m 0) n = none ∨
      adsrRun (midState A D S R m 0) n = some (midState A D S R m n)
  | 0 => fun _ => Or.inr rfl
  | n + 1 => fun h => by
    have hstep : adsrRun (midState A D S R m 0) (n + 1) =
        (adsrRun (midState A D S R m 0) n).bind ADSRState.nextState := rfl
    rcases aux_adsrRun_midState (A := A) (D := D) (S := S) (R := R) (m := m)
        hR n (by omega) with h0 | h0
    · left
      rw [hstep, h0]
      rfl
    · rcases aux_midState_next (A := A) (D := D) (S := S) (R := R) (m := m)
        hR (show n < A + D + m + R by omega) with h1 | h1
      · left
        rw [hstep, h0]
        exact h1
      · right
        rw [hstep, h0]
        exact h1

/-- At sample count `attack + decay + max_sustain + release`, the next call
necessarily ends the sound: elapsed-since-release reaches
`release_samples`. -/
theorem aux_midState_final {A D : ℕ} {S : ℚ} {R m : ℕ} (hR : 1 ≤ R) :
    (midState A D S R m (A + D + m + R)).nextState = none := by
  have h2 : A + D + m + 1 ≤ A + D + m + R := by omega
  rw [aux_next_released (e := midState A D S R m (A + D + m + R))
    (r := A + D + m + 1)
    (by simp [midState, h2]) (by simp [midState, h2])]
  have hcond : (midState A D S R m (A + D + m + R)).release_samples ≤
      (midState A D S R m (A + D + m + R)).sample_count + 1 -
        (A + D + m + 1) := by
    simp only [midState]
    omega
  rw [if_pos hcond]

/-- C2: iterating an `ADSREnvelope` fresh from `new` on a source that always
yields a sample returns `None` within
`attack_samples + decay_samples + max_sustain_samples + release_samples + 1`
iterations, for every parameter choice (so in particular for
attack = decay = 0 seconds, sustain = 0.5, release = 20/99·2 seconds, the
normalized 0–99 parameters 0/0/50ish/20 scaled by the mixer): the envelope
iterator always terminates even without an explicit note-off. -/
theorem C2_envelope_always_terminates
    (attack decay sustain release sample_rate : ℚ) :
    adsrRun (ADSRState.new attack decay sustain release sample_rate)
      ((ADSRState.new attack decay sustain release sample_rate).attack_samples +
       (ADSRState.new attack decay sustain release sample_rate).decay_samples +
       (ADSRState.new attack decay sustain release sample_rate).max_sustain_samples +
       (ADSRState.new attack decay sustain release sample_rate).release_samples + 1) =
      none := by
  have hnew : ADSRState.new attack decay sustain release sample_rate =
      midState (f32AsUsize (attack * sample_rate)) (f32AsUsize (decay * sample_rate))
        sustain (max (f32AsUsize (release * sample_rate)) 1)
        (f32AsUsize ((release * (1/2) + 1/20) * sample_rate)) 0 := by
    simp [ADSRState.new, midState]
  rw [hnew]
  have hR : 1 ≤ max (f32AsUsize (release * sample_rate)) 1 := le_max_right _ _
  show (adsrRun
      (midState (f32AsUsize (attack * sample_rate)) (f32AsUsize (decay * sample_rate))
        sustain (max (f32AsUsize (release * sample_rate)) 1)
        (f32AsUsize ((release * (1/2) + 1/20) * sample_rate)) 0)
      (f32AsUsize (attack * sample_rate) + f32AsUsize (decay * sample_rate) +
        f32AsUsize ((release * (1/2) + 1/20) * sample_rate) +
        max (f32AsUsize (release * sample_rate)) 1)).bind ADSRState.nextState = none
  rcases aux_adsrRun_midState (S := sustain) hR
      (f32AsUsize (attack * sample_rate) + f32AsUsize (decay * sample_rate) +
        f32AsUsize ((release * (1/2) + 1/20) * sample_rate) +
        max (f32AsUsize (release * sample_rate)) 1) (le_refl _) with h0 | h0
  · rw [h0]
    rfl
  · rw [h0]
    exact aux_midState_final hR

/-- Reading anywhere in an all-zero buffer yields `0`. -/
theorem aux_getD_zero {l : List ℚ} (hl : ∀ x ∈ l, x = 0) (i : ℕ) :
    l.getD i 0 = 0 := by
  induction l generalizing i with
  | nil => rfl
  | cons a t ih =>
    cases i with
    | zero => exact hl a (List.mem_cons_self a t)
    | succ j => exact ih (fun x hx => hl x (List.mem_cons_of_mem a hx)) j

/-- Writing `0` into an all-zero buffer keeps it all-zero. -/
theorem aux_set_zero {l : List ℚ} (hl : ∀ x ∈ l, x = 0) (i : ℕ) :
    ∀ x ∈ l.set i 0, x = 0 := by
  intro x hx
  rcases List.mem_or_eq_of_mem_set hx with h | h
  · exact hl x h
  · exact h

/-- A zeroed delay tap reads `0`. -/
theorem aux_read_tap_zero {s : DelayEffect} (hb : ∀ x ∈ s.buffer, x = 0)
    (tap : ℕ) : s.read_tap tap = 0 := by
  unfold DelayEffect.read_tap
  split
  · rfl
  · exact aux_getD_zero hb _

/-- Processing `0` in a `DelayEffect` with all-zero buffer and zero damping
state outputs `0` and preserves the zero state. -/
theorem aux_delay_zero_step {s : DelayEffect} (hb : ∀ x ∈ s.buffer, x = 0)
    (hd : s.damping_filter = 0) :
    (s.process_sample 0).1 = 0 ∧ (∀ x ∈ (s.process_sample 0).2.buffer, x = 0) ∧
      (s.process_sample 0).2.damping_filter = 0 := by
  unfold DelayEffect.process_sample
  simp only [aux_read_tap_zero hb, hd]
  refine ⟨by ring, fun x hx => ?_, by ring⟩
  have hzero : (0 : ℚ) + (0 * (6/10) + 0 * (25/100) + 0 * (15/100)) *
      (1 - s.damping_coefficient) * s.feedback = 0 := by ring
  apply aux_set_zero hb s.write_index x
  convert hx using 3
  ring

/-- After a zero-state, every output of the delay on all-zero input is `0`. -/
theorem aux_delay_zero_run {s : DelayEffect} (hb : ∀ x ∈ s.buffer, x = 0)
    (hd : s.damping_filter = 0) (n : ℕ) :
    delayRunZeros s n = List.replicate n 0 := by
  induction n generalizing s with
  | zero => rfl
  | succ m ih =>
    obtain ⟨h1, h2, h3⟩ := aux_delay_zero_step hb hd
    show (s.process_sample 0).1 :: delayRunZeros (s.process_sample 0).2 m =
      List.replicate (m + 1) 0
    rw [h1, ih h2 h3, List.replicate_succ]

/-- The comb-filter fold on all-zero lines with zero input and zero damping
state: zero output, zero final damping state, lines stay all-zero. -/
theorem aux_comb_zero (damping : ℚ) :
    ∀ (cs : List CombLine), (∀ c ∈ cs, ∀ x ∈ c.buf, x = 0) →
      (processCombList damping 0 cs 0).1 = 0 ∧
      (processCombList damping 0 cs 0).2.1 = 0 ∧
      ∀ c ∈ (processCombList damping 0 cs 0).2.2, ∀ x ∈ c.buf, x = 0 := by
  intro cs
  induction cs with
  | nil => exact fun _ => ⟨rfl, rfl, fun c hc => absurd hc (List.not_mem_nil c)⟩
  | cons c rest ih =>
    intro hz
    have hc : ∀ x ∈ c.buf, x = 0 := hz c (List.mem_cons_self c rest)
    have hrest : ∀ d ∈ rest, ∀ x ∈ d.buf, x = 0 :=
      fun d hd => hz d (List.mem_cons_of_mem c hd)
    obtain ⟨h1, h2, h3⟩ := ih hrest
    unfold processCombList
    dsimp only
    rw [aux_getD_zero hc]
    simp only [zero_mul, add_zero, zero_add, mul_zero]
    refine ⟨by rw [h1], by rw [h2], ?_⟩
    intro d hd x hx
    rcases List.mem_cons.mp hd with hhd | hhd
    · subst hhd
      exact aux_set_zero hc _ x hx
    · exact h3 d hhd x hx

/-- The all-pass cascade on all-zero lines with zero input: zero output,
lines stay all-zero. -/
theorem aux_allpass_zero (fb : ℚ) :
    ∀ (as : List AllpassLine), (∀ a ∈ as, ∀ x ∈ a.buf, x = 0) →
      (processAllpassList fb as 0).1 = 0 ∧
      ∀ a ∈ (processAllpassList fb as 0).2, ∀ x ∈ a.buf, x = 0 := by
  intro as
  induction as with
  | nil => exact fun _ => ⟨rfl, fun a ha => absurd ha (List.not_mem_nil a)⟩
  | cons a rest ih =>
    intro hz
    have ha : ∀ x ∈ a.buf, x = 0 := hz a (List.mem_cons_self a rest)
    have hrest : ∀ d ∈ rest, ∀ x ∈ d.buf, x = 0 :=
      fun d hd => hz d (List.mem_cons_of_mem a hd)
    obtain ⟨h1, h2⟩ := ih hrest
    unfold processAllpassList
    dsimp only
    rw [aux_getD_zero ha]
    simp only [neg_zero, zero_add, add_zero, zero_mul, mul_zero]
    refine ⟨by rw [h1], ?_⟩
    intro d hd x hx
    rcases List.mem_cons.mp hd with hhd | hhd
    · subst hhd
      exact aux_set_zero ha _ x hx
    · exact h2 d hhd x hx

/-- Processing `0` in a `ReverbEffect` whose delay lines are all zero and
whose damping state is zero outputs `0` and preserves the zero state. -/
theorem aux_reverb_zero_step {s : ReverbEffect}
    (hcz : ∀ c ∈ s.combs, ∀ x ∈ c.buf, x = 0)
    (haz : ∀ a ∈ s.allpasses, ∀ x ∈ a.buf, x = 0)
    (hd : s.damping_filter = 0) :
    (s.process_sample 0).1 = 0 ∧
      (∀ c ∈ (s.process_sample 0).2.combs, ∀ x ∈ c.buf, x = 0) ∧
      (∀ a ∈ (s.process_sample 0).2.allpasses, ∀ x ∈ a.buf, x = 0) ∧
      (s.process_sample 0).2.damping_filter = 0 := by
  obtain ⟨hc1, hc2, hc3⟩ := aux_comb_zero s.damping s.combs hcz
  unfold ReverbEffect.process_sample ReverbEffect.process_comb_filters
    ReverbEffect.process_allpass_filters
  dsimp only
  simp only [hd]
  rw [hc1, hc2]
  simp only [zero_div]
  obtain ⟨ha1, ha2⟩ := aux_allpass_zero s.allpass_feedback s.allpasses haz
  rw [ha1]
  exact ⟨by ring_nf, hc3, ha2, trivial⟩

/-- After a reverb zero-state, every output on all-zero input is `0`. -/
theorem aux_reverb_zero_run {s : ReverbEffect}
    (hcz : ∀ c ∈ s.combs, ∀ x ∈ c.buf, x = 0)
    (haz : ∀ a ∈ s.allpasses, ∀ x ∈ a.buf, x = 0)
    (hd : s.damping_filter = 0) (n : ℕ) :
    reverbRunZeros s n = List.replicate n 0 := by
  induction n generalizing s with
  | zero => rfl
  | succ m ih =>
    obtain ⟨h1, h2, h3, h4⟩ := aux_reverb_zero_step hcz haz hd
    show (s.process_sample 0).1 :: reverbRunZeros (s.process_sample 0).2 m =
      List.replicate (m + 1) 0
    rw [h1, ih h2 h3 h4, List.replicate_succ]

/-- Processing `0` in a `FlangerEffect` with all-zero buffer outputs `0` and
keeps the buffer all-zero, for every oscillator function. -/
theorem aux_flanger_zero_step (sin2pi : ℚ → ℚ) {s : FlangerEffect}
    (hb : ∀ x ∈ s.buffer, x = 0) :
    (FlangerEffect.process_sample sin2pi s 0).1 = 0 ∧
      ∀ x ∈ (FlangerEffect.process_sample sin2pi s 0).2.buffer, x = 0 := by
  have hdel : ∀ d : ℚ, s.get_delayed_sample d = 0 := by
    intro d
    unfold FlangerEffect.get_delayed_sample FlangerEffect.lerp
    dsimp only
    rw [aux_getD_zero hb, aux_getD_zero hb]
    ring
  unfold FlangerEffect.process_sample
  dsimp only
  rw [hdel]
  simp only [zero_mul, add_zero, zero_add, mul_zero]
  exact ⟨by ring, aux_set_zero hb _⟩

/-- After a flanger zero-state, every output on all-zero input is `0`. -/
theorem aux_flanger_zero_run (sin2pi : ℚ → ℚ) {s : FlangerEffect}
    (hb : ∀ x ∈ s.buffer, x = 0) (n : ℕ) :
    flangerRunZeros sin2pi s n = List.replicate n 0 := by
  induction n generalizing s with
  | zero => rfl
  | succ m ih =>
    obtain ⟨h1, h2⟩ := aux_flanger_zero_step sin2pi hb
    show (FlangerEffect.process_sample sin2pi s 0).1 ::
        flangerRunZeros sin2pi (FlangerEffect.process_sample sin2pi s 0).2 m =
      List.replicate (m + 1) 0
    rw [h1, ih h2, List.replicate_succ]

/-- C3: after `reset()`, feeding any number of `0.0` input samples into a
`DelayEffect`, `ReverbEffect` or `FlangerEffect` produces exactly `0.0` at
every step (the all-zero internal state is preserved): no residual energy
survives a reset. -/
theorem C3_reset_leaves_no_residue (d : DelayEffect) (r : ReverbEffect)
    (f : FlangerEffect) (sin2pi : ℚ → ℚ) (n : ℕ) :
    delayRunZeros d.reset n = List.replicate n 0 ∧
    reverbRunZeros r.reset n = List.replicate n 0 ∧
    flangerRunZeros sin2pi f.reset n = List.replicate n 0 := by
  refine ⟨aux_delay_zero_run ?_ rfl n, aux_reverb_zero_run ?_ ?_ rfl n,
    aux_flanger_zero_run sin2pi ?_ n⟩
  · intro x hx
    exact List.eq_of_mem_replicate hx
  · intro c hc x hx
    rcases List.mem_map.mp hc with ⟨c0, _, hc0⟩
    rw [← hc0] at hx
    exact List.eq_of_mem_replicate hx
  · intro a ha x hx
    rcases List.mem_map.mp ha with ⟨a0, _, ha0⟩
    rw [← ha0] at hx
    exact List.eq_of_mem_replicate hx
  · intro x hx
    exact List.eq_of_mem_replicate hx

/-- C6: for every `DelayEffect` state and input `x`, `process_sample`
returns `x·(1−mix) + wet·mix` with
`wet = 0.6·(tap at the full delay length) + 0.25·(tap at tap1, the 61.8%
tap) + 0.15·(tap at tap2, the 38.2% tap)`; the sample written at the write
cursor is `x + damping_state·feedback` for the updated damping state
`wet·(1−k) + old·k`; the constructor fixes `k = 0.3` and the 61.8%/38.2% tap
lengths and clamps feedback to at most `0.95`; the setter clamps feedback to
at most `0.99`. -/
theorem C6_delay_process_formula :
    (∀ (s : DelayEffect) (x : ℚ),
      (s.process_sample x).1 =
        x * (1 - s.mix) +
          (s.read_tap s.delay_samples * (6/10) + s.read_tap s.tap1_samples * (25/100) +
            s.read_tap s.tap2_samples * (15/100)) * s.mix ∧
      (s.process_sample x).2.damping_filter =
        (s.read_tap s.delay_samples * (6/10) + s.read_tap s.tap1_samples * (25/100) +
            s.read_tap s.tap2_samples * (15/100)) * (1 - s.damping_coefficient) +
          s.damping_filter * s.damping_coefficient ∧
      (s.process_sample x).2.buffer =
        s.buffer.set s.write_index
          (x + (s.process_sample x).2.damping_filter * s.feedback)) ∧
    (∀ (delay_time_ms feedback mix : ℚ) (sample_rate : ℕ),
      (DelayEffect.new delay_time_ms feedback mix sample_rate).damping_coefficient = 3/10 ∧
      (DelayEffect.new delay_time_ms feedback mix sample_rate).tap1_samples =
        f32AsUsize (((DelayEffect.new delay_time_ms feedback mix sample_rate).delay_samples : ℚ) * (618/1000)) ∧
      (DelayEffect.new delay_time_ms feedback mix sample_rate).tap2_samples =
        f32AsUsize (((DelayEffect.new delay_time_ms feedback mix sample_rate).delay_samples : ℚ) * (382/1000)) ∧
      (DelayEffect.new delay_time_ms feedback mix sample_rate).feedback ≤ 95/100) ∧
    (∀ (s : DelayEffect) (feedback : ℚ),
      (s.set_feedback feedback).feedback ≤ 99/100) := by
  refine ⟨fun s x => ⟨rfl, rfl, rfl⟩, fun dms fb mx sr => ⟨rfl, rfl, rfl, ?_⟩,
    fun s fb => ?_⟩
  · exact min_le_right _ _
  · exact min_le_right _ _

/-- C4: the per-tick trigger test of the scheduler fires exactly when
`last_loop_time < note.timestamp ≤ loop_time`, where the stored reference is
first reset to `-1` on a loop-boundary crossing (`loop_time <
last_loop_time`), and is kept otherwise; the extra 50 ms tolerance disjunct
for a missing prior reference (negative stored value) adds no further firings
for nonnegative timestamps. -/
theorem C4_trigger_iff (last_loop_time loop_time note_start : ℚ)
    (hts : 0 ≤ note_start) :
    (shouldTrigger last_loop_time loop_time note_start = true ↔
      (effectiveLast last_loop_time loop_time < note_start ∧
        note_start ≤ loop_time)) ∧
    (loop_time < last_loop_time → effectiveLast last_loop_time loop_time = -1) ∧
    (¬ loop_time < last_loop_time →
      effectiveLast last_loop_time loop_time = last_loop_time) := by
  refine ⟨?_, fun h => if_pos h, fun h => if_neg h⟩
  unfold shouldTrigger
  simp only [Bool.or_eq_true, Bool.and_eq_true, decide_eq_true_eq]
  constructor
  · rintro (⟨h1, h2⟩ | ⟨⟨h1, h2⟩, _⟩)
    · exact ⟨h1, h2⟩
    · exact ⟨lt_of_lt_of_le h1 hts, h2⟩
  · exact fun h => Or.inl h

/-- Witness for C4 at a concrete tick. -/
theorem C4_trigger_iff_witness :
    (0 : ℚ) ≤ 1/2 ∧
    ((shouldTrigger 0 1 (1/2) = true ↔
      (effectiveLast 0 1 < 1/2 ∧ (1/2 : ℚ) ≤ 1)) ∧
    ((1 : ℚ) < 0 → effectiveLast 0 1 = -1) ∧
    (¬ (1 : ℚ) < 0 → effectiveLast 0 1 = 0)) :=
  ⟨by norm_num, C4_trigger_iff 0 1 (1/2) (by norm_num)⟩

/-- The normalized phase `(t % period) / period` lies in `[0, 1)` for a
positive period. -/
theorem aux_phase_bounds (t p : ℚ) (hp : 0 < p) :
    0 ≤ fmod t p / p ∧ fmod t p / p < 1 := by
  have hne : p ≠ 0 := ne_of_gt hp
  have h : fmod t p / p = Int.fract (t / p) := by
    unfold fmod Int.fract
    field_simp
  rw [h]
  exact ⟨Int.fract_nonneg _, Int.fract_lt_one _⟩

/-- C7: every waveform generator sample is bounded by 1 in magnitude, for
every positive frequency and every sample index: sawtooth `2·phase − 1`,
triangle `4·phase − 1` / `3 − 4·phase`, sine, and square
`sgn(sine)`. -/
theorem C7_generator_output_bounded (frequency : ℚ) (num_sample : ℕ)
    (hf : 0 < frequency) :
    |calculate_sawtooth frequency num_sample| ≤ 1 ∧
    |calculate_triangle frequency num_sample| ≤ 1 ∧
    |calculate_sine frequency num_sample| ≤ 1 ∧
    |squareSample frequency num_sample| ≤ 1 := by
  have hp : 0 < (1 : ℚ) / frequency := by positivity
  obtain ⟨h0, h1⟩ :=
    aux_phase_bounds ((num_sample : ℚ) / SAMPLE_RATE) (1 / frequency) hp
  refine ⟨?_, ?_, ?_, ?_⟩
  · unfold calculate_sawtooth
    dsimp only
    rw [abs_le]
    constructor <;> linarith
  · unfold calculate_triangle
    dsimp only
    split
    · rw [abs_le]
      constructor <;> linarith
    · rename_i hcase
      rw [not_lt] at hcase
      rw [abs_le]
      constructor <;> linarith
  · unfold calculate_sine
    rw [abs_le]
    exact ⟨Real.neg_one_le_sin _, Real.sin_le_one _⟩
  · unfold squareSample sgn
    split <;> norm_num

/-- Witness for C7 at frequency 1, sample index 0. -/
theorem C7_generator_output_bounded_witness :
    (0 : ℚ) < 1 ∧
    (|calculate_sawtooth 1 0| ≤ 1 ∧ |calculate_triangle 1 0| ≤ 1 ∧
      |calculate_sine 1 0| ≤ 1 ∧ |squareSample 1 0| ≤ 1) :=
  ⟨by norm_num, C7_generator_output_bounded 1 0 (by norm_num)⟩

/-- C5 counterexample: in a state with one track (`playing = false`, empty
note list) but a non-empty legacy session-level `recorded_notes` list, the
play-button path `State::start_playback` transitions `recording_state` into
`Playing` even though no track has `playing = true` together with a
non-empty recorded-note list — neither before nor after the transition. -/
theorem C5_playing_entry_counterexample :
    (State.start_playback
        ⟨RecordingState.Stopped, [⟨false, []⟩], [⟨0, 0, 0, 1⟩], none⟩ 0).recording_state =
      RecordingState.Playing ∧
    State.has_playing_tracks
        ⟨RecordingState.Stopped, [⟨false, []⟩], [⟨0, 0, 0, 1⟩], none⟩ = false ∧
    (State.start_playback
        ⟨RecordingState.Stopped, [⟨false, []⟩], [⟨0, 0, 0, 1⟩], none⟩ 0).has_playing_tracks =
      false := by
  refine ⟨?_, rfl, ?_⟩ <;> rfl

/-- C5 amended: `Playing` is entered through two distinct guards. The
track-transport play-click path enters `Playing` (from a non-`Playing`
state) only when, after the toggle, at least one track has `playing = true`
and a non-empty recorded-note list; the legacy play-button path
(`State::start_playback`) enters `Playing` exactly when the session-level
`recorded_notes` list is non-empty (or the state already was `Playing`),
with no requirement on any track. -/
theorem C5_playing_entry_guards (s u : State) (i : ℕ) (t t2 : ℚ)
    (h1 : s.recording_state ≠ RecordingState.Playing)
    (h2 : (handle_track_transport_play s i t).recording_state = RecordingState.Playing) :
    (handle_track_transport_play s i t).has_playing_tracks = true ∧
    ((u.start_playback t2).recording_state = RecordingState.Playing ↔
      (u.recorded_notes ≠ [] ∨ u.recording_state = RecordingState.Playing)) := by
  constructor
  · unfold handle_track_transport_play at h2 ⊢
    dsimp only at h2 ⊢
    by_cases hnotes : (s.tracks.getD i default).recorded_notes ≠ []
    · rw [if_pos hnotes] at h2 ⊢
      by_cases hplay : (transportToggleState s i).has_playing_tracks = true
      · rw [if_pos hplay] at h2 ⊢
        have hne2 : (transportToggleState s i).recording_state ≠
            RecordingState.Playing := h1
        rw [if_pos hne2] at h2 ⊢
        exact hplay
      · rw [if_neg hplay] at h2
        simp only [State.stop_playback] at h2
        cases h2
    · rw [if_neg hnotes] at h2
      exact absurd h2 h1
  · unfold State.start_playback
    split
    · rename_i hne
      exact iff_of_true rfl (Or.inl hne)
    · rename_i hne
      constructor
      · exact fun h => Or.inr h
      · rintro (hc | hc)
        · exact absurd hc hne
        · exact hc

/-- Witness for the amended theorem of C5: clicking play on a track with content
from `Stopped` enters `Playing` with that track playing. -/
theorem C5_playing_entry_guards_witness :
    (handle_track_transport_play
        ⟨RecordingState.Stopped, [⟨false, [⟨0, 0, 0, 1⟩]⟩], [], none⟩ 0 0).has_playing_tracks = true ∧
    ((State.start_playback ⟨RecordingState.Stopped, [], [⟨0, 0, 0, 1⟩], none⟩ 0).recording_state =
        RecordingState.Playing ↔
      (([⟨0, 0, 0, 1⟩] : List RecordedNote) ≠ [] ∨
        RecordingState.Stopped = RecordingState.Playing)) :=
  C5_playing_entry_guards
    ⟨RecordingState.Stopped, [⟨false, [⟨0, 0, 0, 1⟩]⟩], [], none⟩
    ⟨RecordingState.Stopped, [], [⟨0, 0, 0, 1⟩], none⟩ 0 0 0
    (by decide) (by decide)

/-- The fold of `max` starting at `b` dominates `b`. -/
theorem aux_le_foldl_max (l : List ℚ) (b : ℚ) : b ≤ l.foldl max b := by
  induction l generalizing b with
  | nil => exact le_refl b
  | cons a t ih => exact le_trans (le_max_left b a) (ih (max b a))

/-- The fold of `max` dominates every list element. -/
theorem aux_mem_le_foldl_max {a : ℚ} {l : List ℚ} (h : a ∈ l) (b : ℚ) :
    a ≤ l.foldl max b := by
  induction l generalizing b with
  | nil => cases h
  | cons c t ih =>
    rw [List.foldl_cons]
    rcases List.mem_cons.mp h with h1 | h1
    · subst h1
      exact le_trans (le_max_right b a) (aux_le_foldl_max t (max b a))
    · exact ih h1 (max b c)

/-- The fold of `max` is the start value or a list element. -/
theorem aux_foldl_max_cases (l : List ℚ) (b : ℚ) :
    l.foldl max b = b ∨ l.foldl max b ∈ l := by
  induction l generalizing b with
  | nil => exact Or.inl rfl
  | cons a t ih =>
    rw [List.foldl_cons]
    rcases ih (max b a) with h | h
    · rcases max_choice b a with hm | hm
      · rw [h, hm]
        exact Or.inl rfl
      · rw [h, hm]
        exact Or.inr (List.mem_cons_self a t)
    · exact Or.inr (List.mem_cons_of_mem a h)

/-- Membership in `playing_tracks` unfolded. -/
theorem aux_mem_playing_tracks {s : State} {j : ℕ} :
    j ∈ s.playing_tracks ↔ j < s.tracks.length ∧
      (s.tracks.getD j default).playing = true ∧
      (s.tracks.getD j default).recorded_notes ≠ [] := by
  unfold State.playing_tracks
  rw [List.mem_filter, List.mem_range, decide_eq_true_eq]

/-- C8: on a playback tick the computed loop duration is exactly the maximum
over the playing tracks (`playing = true` with non-empty note list) of the
per-track maximum of `timestamp + duration` (it bounds every such note and,
unless it is `0`, is attained by one), it is never negative, and the loop
time is `current_time mod loop_duration` for a positive loop duration and
`current_time` unchanged when the loop duration is `0`. -/
theorem C8_loop_duration_and_time (s : State) (current_time : ℚ)
    (hn : ∀ tr ∈ s.tracks, ∀ note ∈ tr.recorded_notes,
      0 ≤ note.timestamp ∧ 0 ≤ note.duration) :
    (∀ tr ∈ s.tracks, tr.playing = true → tr.recorded_notes ≠ [] →
      ∀ note ∈ tr.recorded_notes,
        note.timestamp + note.duration ≤ maxLoopDuration s) ∧
    (maxLoopDuration s = 0 ∨
      ∃ tr ∈ s.tracks, tr.playing = true ∧ tr.recorded_notes ≠ [] ∧
        ∃ note ∈ tr.recorded_notes,
          note.timestamp + note.duration = maxLoopDuration s) ∧
    0 ≤ maxLoopDuration s ∧
    loopTime current_time (maxLoopDuration s) =
      (if maxLoopDuration s = 0 then current_time
       else fmod current_time (maxLoopDuration s)) := by
  have hnonneg : 0 ≤ maxLoopDuration s := aux_le_foldl_max _ 0
  refine ⟨?_, ?_, hnonneg, ?_⟩
  · intro tr htr hp hne note hnote
    obtain ⟨j, hj, hget⟩ := List.mem_iff_getElem.mp htr
    have hgd : s.tracks.getD j default = tr := by
      rw [List.getD_eq_getElem s.tracks default hj, hget]
    have hjmem : j ∈ s.playing_tracks :=
      aux_mem_playing_tracks.mpr ⟨hj, by rw [hgd]; exact hp, by rw [hgd]; exact hne⟩
    have hpk : trackPeak tr ∈
        (s.playing_tracks).map fun track_id => trackPeak (s.tracks.getD track_id default) :=
      List.mem_map.mpr ⟨j, hjmem, by rw [hgd]⟩
    have h1 : trackPeak tr ≤ maxLoopDuration s := aux_mem_le_foldl_max hpk 0
    have h2 : note.timestamp + note.duration ≤ trackPeak tr := by
      unfold trackPeak
      rw [if_neg hne]
      exact aux_mem_le_foldl_max
        (List.mem_map_of_mem (fun n => n.timestamp + n.duration) hnote) 0
    exact le_trans h2 h1
  · rcases aux_foldl_max_cases
        ((s.playing_tracks).map fun track_id => trackPeak (s.tracks.getD track_id default)) 0
      with h | h
    · exact Or.inl h
    · obtain ⟨j, hjmem, hval⟩ := List.mem_map.mp h
      obtain ⟨hj, hp, hne⟩ := aux_mem_playing_tracks.mp hjmem
      have htr : s.tracks.getD j default ∈ s.tracks := by
        rw [List.getD_eq_getElem s.tracks default hj]
        exact List.getElem_mem hj
      have hpk : trackPeak (s.tracks.getD j default) =
          ((s.tracks.getD j default).recorded_notes.map
            fun n => n.timestamp + n.duration).foldl max 0 := by
        unfold trackPeak
        rw [if_neg hne]
      rcases aux_foldl_max_cases
          ((s.tracks.getD j default).recorded_notes.map fun n => n.timestamp + n.duration) 0
        with h2 | h2
    -- the per-track fold is either its start value 0 (then the whole
    -- duration is 0) or attained by a recorded note
      · left
        show ((s.playing_tracks).map fun track_id =>
          trackPeak (s.tracks.getD track_id default)).foldl max 0 = 0
        rw [← hval, hpk]
        exact h2
      · obtain ⟨note, hnmem, hneq⟩ := List.mem_map.mp h2
        right
        exact ⟨s.tracks.getD j default, htr, hp, hne, note, hnmem,
          hneq.trans (hpk.symm.trans hval)⟩
  · unfold loopTime
    rcases eq_or_lt_of_le hnonneg with h0 | h0
    · rw [if_neg (by rw [← h0]; exact lt_irrefl 0), if_pos h0.symm]
    · rw [if_pos h0, if_neg (ne_of_gt h0)]

/-- Witness for C8: one playing track with a single note at timestamp 1,
duration 2, ticked at elapsed time 4. -/
theorem C8_loop_duration_and_time_witness :
    (∀ tr ∈ ([⟨true, [⟨0, 0, 1, 2⟩]⟩] : List Track),
      ∀ note ∈ tr.recorded_notes, 0 ≤ note.timestamp ∧ 0 ≤ note.duration) ∧
    ((∀ tr ∈ (State.mk RecordingState.Playing [⟨true, [⟨0, 0, 1, 2⟩]⟩] [] none).tracks,
        tr.playing = true → tr.recorded_notes ≠ [] →
        ∀ note ∈ tr.recorded_notes,
          note.timestamp + note.duration ≤
            maxLoopDuration (State.mk RecordingState.Playing [⟨true, [⟨0, 0, 1, 2⟩]⟩] [] none)) ∧
      (maxLoopDuration (State.mk RecordingState.Playing [⟨true, [⟨0, 0, 1, 2⟩]⟩] [] none) = 0 ∨
        ∃ tr ∈ (State.mk RecordingState.Playing [⟨true, [⟨0, 0, 1, 2⟩]⟩] [] none).tracks,
          tr.playing = true ∧ tr.recorded_notes ≠ [] ∧
          ∃ note ∈ tr.recorded_notes,
            note.timestamp + note.duration =
              maxLoopDuration (State.mk RecordingState.Playing [⟨true, [⟨0, 0, 1, 2⟩]⟩] [] none)) ∧
      0 ≤ maxLoopDuration (State.mk RecordingState.Playing [⟨true, [⟨0, 0, 1, 2⟩]⟩] [] none) ∧
      loopTime 4 (maxLoopDuration (State.mk RecordingState.Playing [⟨true, [⟨0, 0, 1, 2⟩]⟩] [] none)) =
        (if maxLoopDuration (State.mk RecordingState.Playing [⟨true, [⟨0, 0, 1, 2⟩]⟩] [] none) = 0
         then 4
         else fmod 4 (maxLoopDuration (State.mk RecordingState.Playing [⟨true, [⟨0, 0, 1, 2⟩]⟩] [] none)))) :=
  ⟨by decide,
   C8_loop_duration_and_time (State.mk RecordingState.Playing [⟨true, [⟨0, 0, 1, 2⟩]⟩] [] none) 4
     (by decide)⟩

/-- The clamp result never exceeds the upper bound. -/
theorem aux_rustClamp_le (x lo hi : ℚ) : rustClamp x lo hi ≤ hi :=
  min_le_right _ _

/-- The clamp result never falls below the (consistent) lower bound. -/
theorem aux_le_rustClamp (x lo hi : ℚ) (h : lo ≤ hi) : lo ≤ rustClamp x lo hi :=
  le_min (le_max_right x lo) h

/-- The `as usize` cast is monotone. -/
theorem aux_f32AsUsize_mono {a b : ℚ} (h : a ≤ b) :
    f32AsUsize a ≤ f32AsUsize b :=
  Int.toNat_le_toNat (Int.floor_le_floor h)

/-- `DelayEffect::new` establishes the buffer invariant. -/
theorem aux_DelayInv_new (delay_time_ms feedback mix : ℚ) (sample_rate : ℕ) :
    DelayInv (DelayEffect.new delay_time_ms feedback mix sample_rate) := by
  unfold DelayInv DelayEffect.new
  dsimp only
  rw [List.length_replicate]
  omega

/-- `DelayEffect::process_sample` preserves the buffer invariant. -/
theorem aux_DelayInv_process (s : DelayEffect) (x : ℚ) (h : DelayInv s) :
    DelayInv (s.process_sample x).2 := by
  obtain ⟨h1, h2⟩ := h
  unfold DelayEffect.process_sample
  dsimp only
  constructor
  · rw [List.length_set]
    exact Nat.mod_lt _ (by omega)
  · rw [List.length_set]
    exact h2

/-- `DelayEffect::reset` preserves the buffer invariant. -/
theorem aux_DelayInv_reset (s : DelayEffect) (h : DelayInv s) :
    DelayInv s.reset := by
  obtain ⟨h1, h2⟩ := h
  unfold DelayInv DelayEffect.reset
  dsimp only
  rw [List.length_replicate]
  omega

/-- `DelayEffect::set_delay_time` (grow-only resize) preserves the buffer
invariant. -/
theorem aux_DelayInv_set_delay_time (s : DelayEffect) (delay_time_ms : ℚ)
    (h : DelayInv s) : DelayInv (s.set_delay_time delay_time_ms) := by
  obtain ⟨h1, h2⟩ := h
  unfold DelayInv DelayEffect.set_delay_time
  dsimp only
  split
  · split
    · dsimp only
      rw [List.length_append, List.length_replicate]
      omega
    · exact ⟨h1, h2⟩
  · exact ⟨h1, h2⟩

/-- The `read_tap` guard returns the 0.0 sentinel for a zero tap length or a
tap length at or beyond the buffer length. -/
theorem aux_read_tap_sentinel (s : DelayEffect) (tap : ℕ)
    (h : tap = 0 ∨ s.buffer.length ≤ tap) : s.read_tap tap = 0 := by
  unfold DelayEffect.read_tap
  rw [if_pos h]

/-- For a tap that passes the guard, the delay read index is in bounds and
the circular-wrap subtraction cannot underflow. -/
theorem aux_readTapIndex_lt (s : DelayEffect) (tap : ℕ) (h : DelayInv s)
    (h0 : 0 < tap) (hlen : tap < s.buffer.length) :
    s.readTapIndex tap < s.buffer.length ∧ tap - s.write_index ≤ s.buffer.length := by
  obtain ⟨h1, _⟩ := h
  unfold DelayEffect.readTapIndex
  split <;> omega

/-- `FlangerEffect::new` establishes the buffer invariant. -/
theorem aux_FlangerInv_new (lfo_rate depth feedback mix : ℚ) (sample_rate : ℕ) :
    FlangerInv (FlangerEffect.new lfo_rate depth feedback mix sample_rate) := by
  unfold FlangerInv FlangerEffect.new
  dsimp only
  rw [List.length_replicate]
  refine ⟨by omega, by omega, by positivity, by positivity, ?_, ?_, by omega⟩
  · exact aux_le_rustClamp depth 0 1 (by norm_num)
  · exact aux_rustClamp_le depth 0 1

/-- `FlangerEffect::process_sample` preserves the buffer invariant. -/
theorem aux_FlangerInv_process (sin2pi : ℚ → ℚ) (s : FlangerEffect) (x : ℚ)
    (h : FlangerInv s) : FlangerInv (FlangerEffect.process_sample sin2pi s x).2 := by
  obtain ⟨h1, h2, h3, h4, h5, h6, h7⟩ := h
  unfold FlangerInv FlangerEffect.process_sample
  dsimp only
  rw [List.length_set]
  exact ⟨Nat.mod_lt _ (by omega), h2, h3, h4, h5, h6, h7⟩

/-- `FlangerEffect::reset` preserves the buffer invariant. -/
theorem aux_FlangerInv_reset (s : FlangerEffect) (h : FlangerInv s) :
    FlangerInv s.reset := by
  obtain ⟨h1, h2, h3, h4, h5, h6, h7⟩ := h
  unfold FlangerInv FlangerEffect.reset
  dsimp only
  rw [List.length_replicate]
  exact ⟨by omega, h2, h3, h4, h5, h6, h7⟩

/-- The modulated flanger delay, truncated to samples, stays strictly inside
the buffer whenever the LFO value is a genuine sine value (`|v| ≤ 1`). -/
theorem aux_flanger_delay_int_lt (s : FlangerEffect) (v : ℚ)
    (h : FlangerInv s) (hv : |v| ≤ 1) :
    f32AsUsize (s.totalDelay v) < s.buffer.length := by
  obtain ⟨h1, h2, h3, h4, h5, h6, h7⟩ := h
  obtain ⟨hv1, hv2⟩ := abs_le.mp hv
  have hcoef0 : 0 ≤ v * (1/2) + 1/2 := by linarith
  have hcoef1 : v * (1/2) + 1/2 ≤ 1 := by linarith
  have hle : s.totalDelay v ≤ s.delay_base + s.delay_range := by
    unfold FlangerEffect.totalDelay
    have hstep1 : (v * (1/2) + 1/2) * s.delay_range * s.depth ≤
        (v * (1/2) + 1/2) * s.delay_range :=
      mul_le_of_le_one_right (mul_nonneg hcoef0 h4) h6
    have hstep2 : (v * (1/2) + 1/2) * s.delay_range ≤ s.delay_range :=
      mul_le_of_le_one_left h4 hcoef1
    linarith
  exact lt_of_le_of_lt (aux_f32AsUsize_mono hle) h7

/-- The two interpolation read indices of the flanger are in bounds, and the
circular-wrap subtraction cannot underflow. -/
theorem aux_flanger_read_indices (s : FlangerEffect) (v : ℚ)
    (h : FlangerInv s) (hv : |v| ≤ 1) :
    s.readIndex1 (f32AsUsize (s.totalDelay v)) < s.buffer.length ∧
    s.readIndex2 (f32AsUsize (s.totalDelay v)) < s.buffer.length ∧
    f32AsUsize (s.totalDelay v) - s.write_index ≤ s.buffer.length := by
  have hdint := aux_flanger_delay_int_lt s v h hv
  obtain ⟨h1, h2, _⟩ := h
  have hr1 : s.readIndex1 (f32AsUsize (s.totalDelay v)) < s.buffer.length := by
    unfold FlangerEffect.readIndex1
    split <;> omega
  refine ⟨hr1, ?_, by omega⟩
  unfold FlangerEffect.readIndex2
  split <;> omega

/-- C9: per-sample effect processing cannot panic. A delay tap of length 0
or at/beyond the buffer length yields the defined 0.0 sentinel; for every
state satisfying the reachable-state invariant (established by the
constructor and preserved by `process_sample`, `reset` and the delay-time
setter), every buffer index read or written by `process_sample` is within
the buffer bounds and every circular-wrap subtraction is underflow-free. -/
theorem C9_processing_never_panics :
    (∀ (s : DelayEffect) (tap : ℕ), tap = 0 ∨ s.buffer.length ≤ tap →
      s.read_tap tap = 0) ∧
    (∀ (s : DelayEffect) (tap : ℕ), DelayInv s → 0 < tap → tap < s.buffer.length →
      s.readTapIndex tap < s.buffer.length ∧
        tap - s.write_index ≤ s.buffer.length) ∧
    (∀ (s : DelayEffect), DelayInv s → s.write_index < s.buffer.length) ∧
    (∀ (delay_time_ms feedback mix : ℚ) (sample_rate : ℕ),
      DelayInv (DelayEffect.new delay_time_ms feedback mix sample_rate)) ∧
    (∀ (s : DelayEffect) (x : ℚ), DelayInv s → DelayInv (s.process_sample x).2) ∧
    (∀ (s : DelayEffect), DelayInv s → DelayInv s.reset) ∧
    (∀ (s : DelayEffect) (delay_time_ms : ℚ), DelayInv s →
      DelayInv (s.set_delay_time delay_time_ms)) ∧
    (∀ (s : FlangerEffect) (v : ℚ), FlangerInv s → |v| ≤ 1 →
      f32AsUsize (s.totalDelay v) < s.buffer.length ∧
      s.readIndex1 (f32AsUsize (s.totalDelay v)) < s.buffer.length ∧
      s.readIndex2 (f32AsUsize (s.totalDelay v)) < s.buffer.length ∧
      f32AsUsize (s.totalDelay v) - s.write_index ≤ s.buffer.length ∧
      s.write_index < s.buffer.length) ∧
    (∀ (lfo_rate depth feedback mix : ℚ) (sample_rate : ℕ),
      FlangerInv (FlangerEffect.new lfo_rate depth feedback mix sample_rate)) ∧
    (∀ (sin2pi : ℚ → ℚ) (s : FlangerEffect) (x : ℚ), FlangerInv s →
      FlangerInv (FlangerEffect.process_sample sin2pi s x).2) ∧
    (∀ (s : FlangerEffect), FlangerInv s → FlangerInv s.reset) := by
  refine ⟨aux_read_tap_sentinel, aux_readTapIndex_lt, fun s h => h.1,
    aux_DelayInv_new, aux_DelayInv_process, aux_DelayInv_reset,
    aux_DelayInv_set_delay_time, ?_, aux_FlangerInv_new, aux_FlangerInv_process,
    aux_FlangerInv_reset⟩
  intro s v h hv
  obtain ⟨hr1, hr2, hr3⟩ := aux_flanger_read_indices s v h hv
  exact ⟨aux_flanger_delay_int_lt s v h hv, hr1, hr2, hr3, h.1⟩

/-- Witness for C9 at concrete effects (100 ms delay and a default-ish
flanger, both at 44100 Hz) with concrete tap length 5 and LFO value 1. -/
theorem C9_processing_never_panics_witness :
    (DelayEffect.new 100 (1/2) (1/2) 44100).read_tap 0 = 0 ∧
    DelayInv (DelayEffect.new 100 (1/2) (1/2) 44100) ∧
    ((DelayEffect.new 100 (1/2) (1/2) 44100).readTapIndex 5 <
        (DelayEffect.new 100 (1/2) (1/2) 44100).buffer.length ∧
      5 - (DelayEffect.new 100 (1/2) (1/2) 44100).write_index ≤
        (DelayEffect.new 100 (1/2) (1/2) 44100).buffer.length) ∧
    FlangerInv (FlangerEffect.new (1/2) (1/2) (1/2) (1/2) 44100) ∧
    (f32AsUsize ((FlangerEffect.new (1/2) (1/2) (1/2) (1/2) 44100).totalDelay 1) <
        (FlangerEffect.new (1/2) (1/2) (1/2) (1/2) 44100).buffer.length ∧
      (FlangerEffect.new (1/2) (1/2) (1/2) (1/2) 44100).readIndex1
          (f32AsUsize ((FlangerEffect.new (1/2) (1/2) (1/2) (1/2) 44100).totalDelay 1)) <
        (FlangerEffect.new (1/2) (1/2) (1/2) (1/2) 44100).buffer.length ∧
      (FlangerEffect.new (1/2) (1/2) (1/2) (1/2) 44100).readIndex2
          (f32AsUsize ((FlangerEffect.new (1/2) (1/2) (1/2) (1/2) 44100).totalDelay 1)) <
        (FlangerEffect.new (1/2) (1/2) (1/2) (1/2) 44100).buffer.length ∧
      f32AsUsize ((FlangerEffect.new (1/2) (1/2) (1/2) (1/2) 44100).totalDelay 1) -
          (FlangerEffect.new (1/2) (1/2) (1/2) (1/2) 44100).write_index ≤
        (FlangerEffect.new (1/2) (1/2) (1/2) (1/2) 44100).buffer.length ∧
      (FlangerEffect.new (1/2) (1/2) (1/2) (1/2) 44100).write_index <
        (FlangerEffect.new (1/2) (1/2) (1/2) (1/2) 44100).buffer.length) := by
  have hlen : (5 : ℕ) < (DelayEffect.new 100 (1/2) (1/2) 44100).buffer.length := by
    unfold DelayEffect.new
    dsimp only
    rw [List.length_replicate]
    have h : f32AsUsize (100 / 1000 * ((44100 : ℕ) : ℚ)) = 4410 := by
      norm_num [f32AsUsize]
      decide
    rw [h]
    omega
  refine ⟨C9_processing_never_panics.1 _ 0 (Or.inl rfl),
    C9_processing_never_panics.2.2.2.1 100 (1/2) (1/2) 44100,
    C9_processing_never_panics.2.1 _ 5
      (aux_DelayInv_new 100 (1/2) (1/2) 44100) (by norm_num) hlen,
    C9_processing_never_panics.2.2.2.2.2.2.2.2.1 (1/2) (1/2) (1/2) (1/2) 44100,
    C9_processing_never_panics.2.2.2.2.2.2.2.1 _ 1
      (aux_FlangerInv_new (1/2) (1/2) (1/2) (1/2) 44100) (by norm_num)⟩

end Synth
